import Mathlib

/-!
Verification of the content model of the `my-portfolio` repository: the
typed data tables (`presentation`, `projects`), the markdown content store,
and the front-matter parser / post-collection assembler contract described
in the specification (§3–§8).  The repository itself ships only the data
declarations and the content files; the parser and assembler operations
(`parse`, `listPublished`, `listAll`, `getBySlug`) are modelled from the
specification and verified against it.
-/

namespace Portfolio

/-- A calendar date as written in front matter (`YYYY-MM-DD`), no
time-of-day component. -/
structure Date where
  year : Nat
  month : Nat
  day : Nat
deriving DecidableEq, Repr

/-- Lexicographic (chronological) order on dates. -/
def Date.le (a b : Date) : Prop :=
  a.year < b.year ∨ (a.year = b.year ∧
    (a.month < b.month ∨ (a.month = b.month ∧ a.day ≤ b.day)))

instance (a b : Date) : Decidable (Date.le a b) := by
  unfold Date.le; infer_instance

/-- A parsed post: the front-matter metadata fields plus the body text,
kept as its raw lines (opaque to this layer). -/
structure Post where
  title : String
  publishedAt : Date
  description : String
  slug : String
  isPublish : Bool
  body : List String
deriving DecidableEq, Repr

/-- Errors of the front-matter parser, per the specification's
MalformedFrontMatter taxonomy: the metadata block is missing,
unterminated, or a required field is missing or has an unparsable value. -/
inductive ParseError where
  | missingFrontMatter
  | unterminatedFrontMatter
  | missingField (key : String)
  | badValue (key : String)
deriving DecidableEq, Repr

/-- A content file of the content store: its name and its raw lines. -/
structure RawFile where
  name : String
  lines : List String
deriving DecidableEq, Repr

/-- The front-matter delimiter line: exactly `---`. -/
def isDelim (s : String) : Bool :=
  match s.data with
  | ['-', '-', '-'] => true
  | _ => false

/-- Split a line of the metadata block at the first `: ` into a key and a
raw value (character lists). `none` when the line has no `: `. -/
def splitKV : List Char → Option (List Char × List Char)
  | [] => none
  | ':' :: ' ' :: rest => some ([], rest)
  | c :: rest =>
    match splitKV rest with
    | some (k, v) => some (c :: k, v)
    | none => none

/-- Remove a trailing `"` character, used when stripping quotes. -/
def stripLastQuote : List Char → List Char
  | [] => []
  | ['"'] => []
  | c :: rest => c :: stripLastQuote rest

/-- Quoted values strip their surrounding quotes; unquoted values are kept
as written. -/
def stripQuotes : List Char → List Char
  | '"' :: rest => stripLastQuote rest
  | cs => cs

/-- Split a character list on `-` separators (for `YYYY-MM-DD` values). -/
def splitOnDash : List Char → List (List Char)
  | [] => [[]]
  | '-' :: rest => [] :: splitOnDash rest
  | c :: rest =>
    match splitOnDash rest with
    | [] => [[c]]
    | p :: ps => (c :: p) :: ps

/-- Read a decimal numeral; `none` on a non-digit or on empty input. -/
def charsToNat : List Char → Option Nat
  | [] => none
  | cs => go cs 0
where
  go : List Char → Nat → Option Nat
    | [], acc => some acc
    | c :: rest, acc =>
      if c.isDigit then go rest (acc * 10 + (c.toNat - '0'.toNat))
      else none

/-- Parse an unquoted `YYYY-MM-DD` calendar-date value. -/
def parseDate (cs : List Char) : Option Date :=
  match splitOnDash cs with
  | [y, m, d] =>
    match charsToNat y, charsToNat m, charsToNat d with
    | some y, some m, some d => some ⟨y, m, d⟩
    | _, _, _ => none
  | _ => none

/-- Parse an unquoted boolean literal. -/
def parseBool (cs : List Char) : Option Bool :=
  match cs with
  | ['t', 'r', 'u', 'e'] => some true
  | ['f', 'a', 'l', 's', 'e'] => some false
  | _ => none

/-- First value bound to `key` among the metadata `key: value` pairs. -/
def lookupKey (key : List Char) (kvs : List (List Char × List Char)) :
    Option (List Char) :=
  (kvs.find? (fun kv => kv.1 == key)).map (·.2)

/-- Split the lines after the opening delimiter at the first closing
delimiter: metadata lines on the left, body lines on the right.  `none`
when no closing delimiter exists (unterminated front matter). -/
def splitAtDelim : List String → Option (List String × List String)
  | [] => none
  | l :: rest =>
    if isDelim l then some ([], rest)
    else (splitAtDelim rest).map (fun p => (l :: p.1, p.2))

/-- The `key: value` pairs of the metadata lines. -/
def metaKVs (meta : List String) : List (List Char × List Char) :=
  meta.filterMap (fun l => splitKV l.data)

/-- Build the `Post` metadata record from the metadata lines and the body
lines: every required field must be present and parsable. -/
def buildPost (meta body : List String) : Except ParseError Post :=
  match lookupKey "title".data (metaKVs meta) with
  | none => .error (.missingField "title")
  | some tv =>
    match lookupKey "publishedAt".data (metaKVs meta) with
    | none => .error (.missingField "publishedAt")
    | some dv =>
      match parseDate dv with
      | none => .error (.badValue "publishedAt")
      | some date =>
        match lookupKey "description".data (metaKVs meta) with
        | none => .error (.missingField "description")
        | some descv =>
          match lookupKey "slug".data (metaKVs meta) with
          | none => .error (.missingField "slug")
          | some sv =>
            match lookupKey "isPublish".data (metaKVs meta) with
            | none => .error (.missingField "isPublish")
            | some pv =>
              match parseBool (stripQuotes pv) with
              | none => .error (.badValue "isPublish")
              | some pub =>
                .ok { title := ⟨stripQuotes tv⟩
                      publishedAt := date
                      description := ⟨stripQuotes descv⟩
                      slug := ⟨stripQuotes sv⟩
                      isPublish := pub
                      body := body }

/-- Modelled from the spec: the Post Front-Matter Parser (§4.3, §6) is not
shipped in the repository source; per the spec, a content file's metadata
block is delimited by `---` markers at the top of the file, holds flat
`key: value` lines (quoted values strip their quotes, booleans and dates
parse as literals), and everything after the closing delimiter is the
opaque body.  A missing or malformed marker, or a missing/unparsable
required field, is a parse failure for that single file. -/
def parse (lines : List String) : Except ParseError Post :=
  match lines with
  | [] => .error .missingFrontMatter
  | first :: rest =>
    if isDelim first then
      match splitAtDelim rest with
      | none => .error .unterminatedFrontMatter
      | some (meta, body) => buildPost meta body
    else .error .missingFrontMatter

/-- Build-time diagnostics the assembler surfaces alongside its results,
per the specification's error taxonomy (§7). -/
inductive Diagnostic where
  | malformedFrontMatter (file : String) (e : ParseError)
  | duplicateSlug (keptFile droppedFile : String)
  | emptyCollection
deriving DecidableEq, Repr

/-- Modelled from the spec: the assembler's scan step (§4.4) — parse every
file of the content store via the front-matter parser, retain successfully
parsed posts in scan order, and turn each per-file failure into a
diagnostic instead of aborting. -/
def parseAll : List RawFile → List (String × Post) × List Diagnostic
  | [] => ([], [])
  | f :: fs =>
    let r := parseAll fs
    match parse f.lines with
    | .ok p => ((f.name, p) :: r.1, r.2)
    | .error e => (r.1, .malformedFrontMatter f.name e :: r.2)

/-- Modelled from the spec: duplicate-slug resolution (§7, Scenario 4) —
a deterministic first-wins scan that keeps the first post of each slug,
drops later ones, and reports both offending files in a DuplicateSlug
diagnostic so that neither silently shadows the other. -/
def dedupeGo (seen : List (String × Post)) :
    List (String × Post) → List (String × Post) × List Diagnostic
  | [] => ([], [])
  | np :: rest =>
    match seen.find? (fun q => q.2.slug == np.2.slug) with
    | some q =>
      let r := dedupeGo seen rest
      (r.1, .duplicateSlug q.1 np.1 :: r.2)
    | none =>
      let r := dedupeGo (seen ++ [np]) rest
      (np :: r.1, r.2)

/-- Duplicate-slug resolution over the whole parsed list. -/
def dedupeSlugs (l : List (String × Post)) :
    List (String × Post) × List Diagnostic :=
  dedupeGo [] l

/-- The assembled collection: the retained posts (with their source file
names, in scan order) and the diagnostics list. -/
structure Collection where
  posts : List (String × Post)
  diagnostics : List Diagnostic
deriving DecidableEq, Repr

/-- Modelled from the spec: the Post Collection Assembler (§4.4, §7) is
not shipped in the repository source; per the spec it scans the content
store once, parses every file, retains successfully parsed posts,
resolves duplicate slugs with a diagnostic, and warns when a non-empty
store yields zero valid posts.  Per-file failures become diagnostics and
never propagate as exceptions (the result is always a `Collection`). -/
def assemble (files : List RawFile) : Collection :=
  let pr := parseAll files
  let dr := dedupeSlugs pr.1
  let empt : List Diagnostic :=
    if dr.1.isEmpty && !files.isEmpty then [.emptyCollection] else []
  ⟨dr.1, pr.2 ++ dr.2 ++ empt⟩

/-- Insert a post into a list sorted by `publishedAt` descending, before
the first entry whose date is at most its own (so an earlier-scanned post
stays ahead of later ones with the same date). -/
def insertPost (a : Post) : List Post → List Post
  | [] => [a]
  | b :: l =>
    if Date.le b.publishedAt a.publishedAt then a :: b :: l
    else b :: insertPost a l

/-- Modelled from the spec: stable sort by `publishedAt` descending
(§3, §4.4), ties broken by input (scan) order. -/
def sortByDateDesc : List Post → List Post
  | [] => []
  | a :: l => insertPost a (sortByDateDesc l)

/-- Modelled from the spec: `listAll()` (§4.4) — the ordered sequence of
all retained posts including drafts, newest `publishedAt` first. -/
def listAll (c : Collection) : List Post :=
  sortByDateDesc (c.posts.map (·.2))

/-- Modelled from the spec: `listPublished()` (§4.4) — the public listing,
excluding any post whose `isPublish` is false. -/
def listPublished (c : Collection) : List Post :=
  (listAll c).filter (·.isPublish)

/-- Modelled from the spec: `getBySlug(slug)` (§4.4, §7) — lookup of a
single post by slug; "not found" is the explicit `none` result, also
returned for a draft when the caller is not authorized to see drafts. -/
def getBySlug (authorized : Bool) (c : Collection) (s : String) :
    Option Post :=
  match c.posts.find? (fun np => np.2.slug == s) with
  | none => none
  | some np => if np.2.isPublish || authorized then some np.2 else none

/-- A social link, from the `Social` type of the presentation data table. -/
structure Social where
  label : String
  link : String
deriving DecidableEq, Repr

/-- The `Presentation` record type of the data table: `profile` is an
optional field (`profile?: string`), modelled as an explicit `Option`. -/
structure Presentation where
  mail : String
  title : String
  description : String
  socials : List Social
  profile : Option String
deriving DecidableEq, Repr

/-- The singleton `presentation` value from the data table.  The
`profile` line is commented out in the source, so the optional field is
absent. -/
def presentation : Presentation :=
  { mail := "amir.shafat1@gmail.com"
    title := "Hi, I’m Amir 👋"
    description :=
      "“Hey there! I’m Amir, your friendly neighborhood web developer."
    socials :=
      [ { label := "Linkedin"
          link := "https://www.linkedin.com/in/amir-shafat-b261b8219/" }
      , { label := "Facebook"
          link := "https://www.facebook.com/amir.shafat.5/" }
      , { label := "Github"
          link := "https://github.com/amirs18" } ]
    profile := none }

/-- Does a line carry the given front-matter key? -/
def hasKey (k : String) (l : String) : Bool :=
  match splitKV l.data with
  | some kv => kv.1 == k.data
  | none => false

/-- The shape the specification's content-file format (§6) requires at the
top of a file: the opening `---` on the very first line, then the five
`key: value` lines in order, then the closing `---`. -/
def beginsWithFrontMatter (ls : List String) : Bool :=
  match ls with
  | a :: b :: c :: d :: e :: f :: g :: _ =>
    isDelim a && hasKey "title" b && hasKey "publishedAt" c &&
      hasKey "description" d && hasKey "slug" e && hasKey "isPublish" f &&
      isDelim g
  | _ => false

/-- Opening lines of `src/content/posts/05_Effect_TS_Full_Stack_Solutions.md`:
the file starts with a blank line, the `---` delimiter is its second line. -/
def effectTSHead : List String :=
  [ ""
  , "---"
  , "title: \"Effect TS in Full-Stack Applications: Solving Real-World Challenges\""
  , "publishedAt: 2025-08-04"
  , "description: \"Learn how Effect TS solves common full-stack development challenges with type-safe error handling, state management, and robust data operations.\""
  , "slug: \"Effect TS Full-Stack Solutions\""
  , "isPublish: true"
  , "---" ]

/-- Opening lines of the "Open source Hustle" content document. -/
def openSourceHustleHead : List String :=
  [ "---"
  , "title: \"Open source Hustle\""
  , "publishedAt: 2024-12-24"
  , "description: \"\""
  , "slug: \"Open source Hustle\""
  , "isPublish: true"
  , "---" ]

/-- Opening lines of the "Astro and Supabase for a Dreamy DevX" document. -/
def astroHead : List String :=
  [ "---"
  , "title: \"Astro and Supabase for a Dreamy DevX\""
  , "publishedAt: 2024-05-24"
  , "description: \"\""
  , "slug: \"Astro and Supabase Dreamy DevX\""
  , "isPublish: true"
  , "---" ]

/-- Opening lines of the "Deno" content document. -/
def denoHead : List String :=
  [ "---"
  , "title: \"Deno\""
  , "publishedAt: 2024-11-16"
  , "description: \"\""
  , "slug: \"Deno\""
  , "isPublish: true"
  , "---" ]

/-- Opening lines of the "WebAssembly in the Browser" content document. -/
def webAssemblyHead : List String :=
  [ "---"
  , "title: \"WebAssembly in the Browser: Unlocking New Possibilities\""
  , "publishedAt: 2025-08-04"
  , "description: \"Explore how WebAssembly is transforming browser capabilities, with StackBlitz WebContainers as a real-world example.\""
  , "slug: \"WebAssembly in the Browser\""
  , "isPublish: true"
  , "---" ]

/-- Opening lines of the "Becoming a Better Web Developer" document, which
has no front-matter block at all. -/
def becomingHead : List String :=
  [ "# Becoming a Better Web Developer"
  , "" ]

/-- The content store: each document of the repository's content
collection with its opening lines (documents other than the Effect TS
file carry descriptive names, their file names not being recorded). -/
def contentStoreHeads : List (String × List String) :=
  [ ("05_Effect_TS_Full_Stack_Solutions.md", effectTSHead)
  , ("open-source-hustle", openSourceHustleHead)
  , ("astro-and-supabase-dreamy-devx", astroHead)
  , ("deno", denoHead)
  , ("webassembly-in-the-browser", webAssemblyHead)
  , ("becoming-a-better-web-developer", becomingHead) ]

/-- A `slug: "<v>"` front-matter line for an arbitrary slug value `v`. -/
def mkSlugLine (v : String) : String :=
  ⟨['s', 'l', 'u', 'g', ':', ' ', '"'] ++ v.data ++ ['"']⟩

/-- A well-formed content file whose slug value is `v` and body is
`body`; used to check that the parser returns the slug verbatim. -/
def mkSlugTestFile (v : String) (body : List String) : List String :=
  [ "---"
  , "title: \"T\""
  , "publishedAt: 2024-12-24"
  , "description: \"\""
  , mkSlugLine v
  , "isPublish: true"
  , "---" ] ++ body

/-- A sample published content file. -/
def fileA : RawFile :=
  ⟨"a.md",
   [ "---", "title: \"A\"", "publishedAt: 2025-01-01", "description: \"\""
   , "slug: \"a\"", "isPublish: true", "---", "body A" ]⟩

/-- The post `fileA` parses to. -/
def postA : Post :=
  { title := "A", publishedAt := ⟨2025, 1, 1⟩, description := ""
    slug := "a", isPublish := true, body := ["body A"] }

/-- A sample draft content file (Scenario 2 of the spec). -/
def fileB : RawFile :=
  ⟨"b.md",
   [ "---", "title: \"B\"", "publishedAt: 2024-01-01", "description: \"\""
   , "slug: \"draft-post\"", "isPublish: false", "---", "body B" ]⟩

/-- The post `fileB` parses to. -/
def postB : Post :=
  { title := "B", publishedAt := ⟨2024, 1, 1⟩, description := ""
    slug := "draft-post", isPublish := false, body := ["body B"] }

/-- A sample file missing the closing front-matter marker (Scenario 3). -/
def fileBad : RawFile :=
  ⟨"bad.md", ["---", "title: \"Bad\""]⟩

/-- First of two sample files declaring `slug: "same-slug"` (Scenario 4). -/
def fileDup1 : RawFile :=
  ⟨"dup1.md",
   [ "---", "title: \"D1\"", "publishedAt: 2024-02-02", "description: \"\""
   , "slug: \"same-slug\"", "isPublish: true", "---", "body D1" ]⟩

/-- The post `fileDup1` parses to. -/
def postDup1 : Post :=
  { title := "D1", publishedAt := ⟨2024, 2, 2⟩, description := ""
    slug := "same-slug", isPublish := true, body := ["body D1"] }

/-- Second of the two sample files declaring `slug: "same-slug"`. -/
def fileDup2 : RawFile :=
  ⟨"dup2.md",
   [ "---", "title: \"D2\"", "publishedAt: 2024-03-03", "description: \"\""
   , "slug: \"same-slug\"", "isPublish: true", "---", "body D2" ]⟩

/-- The post `fileDup2` parses to. -/
def postDup2 : Post :=
  { title := "D2", publishedAt := ⟨2024, 3, 3⟩, description := ""
    slug := "same-slug", isPublish := true, body := ["body D2"] }

/-- A draft file that also declares `slug: "same-slug"`: successfully
parsed, then dropped by duplicate-slug resolution. -/
def fileDupDraft : RawFile :=
  ⟨"dupd.md",
   [ "---", "title: \"DD\"", "publishedAt: 2024-04-04", "description: \"\""
   , "slug: \"same-slug\"", "isPublish: false", "---", "body DD" ]⟩

/-- The post `fileDupDraft` parses to. -/
def postDupDraft : Post :=
  { title := "DD", publishedAt := ⟨2024, 4, 4⟩, description := ""
    slug := "same-slug", isPublish := false, body := ["body DD"] }

/-- The metadata lines of the Deno content document. -/
def denoMeta : List String :=
  [ "title: \"Deno\"", "publishedAt: 2024-11-16", "description: \"\""
  , "slug: \"Deno\"", "isPublish: true" ]

/-- A body shaped like the Deno document's: it contains `---` horizontal
rules and even ends with a `---` line. -/
def denoBody : List String :=
  [ "", "## Exploring Deno 2.0", "", "---", "", "## Simplicity at Its Core"
  , "Ready to get started?", "", "---" ]

/-- The post the Deno-shaped file parses to. -/
def denoPost : Post :=
  { title := "Deno", publishedAt := ⟨2024, 11, 16⟩, description := ""
    slug := "Deno", isPublish := true, body := denoBody }

/-! ## Order lemmas for dates -/

theorem Date.le_refl (a : Date) : Date.le a a := by
  simp [Date.le]

theorem Date.le_total (a b : Date) : Date.le a b ∨ Date.le b a := by
  rcases Nat.lt_trichotomy a.year b.year with h | h | h
  · exact Or.inl (Or.inl h)
  · rcases Nat.lt_trichotomy a.month b.month with h2 | h2 | h2
    · exact Or.inl (Or.inr ⟨h, Or.inl h2⟩)
    · rcases Nat.le_total a.day b.day with h3 | h3
      · exact Or.inl (Or.inr ⟨h, Or.inr ⟨h2, h3⟩⟩)
      · exact Or.inr (Or.inr ⟨h.symm, Or.inr ⟨h2.symm, h3⟩⟩)
    · exact Or.inr (Or.inr ⟨h.symm, Or.inl h2⟩)
  · exact Or.inr (Or.inl h)

theorem Date.le_trans {a b c : Date} (hab : Date.le a b) (hbc : Date.le b c) :
    Date.le a c := by
  rcases hab with h | ⟨hy, h⟩
  · rcases hbc with h2 | ⟨hy2, _⟩
    · exact Or.inl (h.trans h2)
    · exact Or.inl (hy2 ▸ h)
  · rcases hbc with h2 | ⟨hy2, h3⟩
    · exact Or.inl (hy ▸ h2)
    · refine Or.inr ⟨hy.trans hy2, ?_⟩
      rcases h with hm | ⟨hm, hd⟩
      · rcases h3 with hm2 | ⟨hm2, _⟩
        · exact Or.inl (hm.trans hm2)
        · exact Or.inl (hm2 ▸ hm)
      · rcases h3 with hm2 | ⟨hm2, hd2⟩
        · exact Or.inl (hm ▸ hm2)
        · exact Or.inr ⟨hm.trans hm2, hd.trans hd2⟩

/-! ## The stable descending sort -/

theorem insertPost_perm (a : Post) (l : List Post) :
    (insertPost a l).Perm (a :: l) := by
  induction l with
  | nil => exact List.Perm.refl _
  | cons b l ih =>
    simp only [insertPost]
    by_cases h : Date.le b.publishedAt a.publishedAt
    · simp [h]
    · simp only [h, if_false]
      exact (ih.cons b).trans (List.Perm.swap a b l)

theorem sortByDateDesc_perm (l : List Post) :
    (sortByDateDesc l).Perm l := by
  induction l with
  | nil => exact List.Perm.refl _
  | cons a l ih =>
    exact (insertPost_perm a (sortByDateDesc l)).trans (ih.cons a)

theorem mem_insertPost {x a : Post} {l : List Post} :
    x ∈ insertPost a l ↔ x = a ∨ x ∈ l := by
  constructor
  · intro hx
    have := (insertPost_perm a l).mem_iff.mp hx
    simpa using this
  · intro hx
    exact (insertPost_perm a l).mem_iff.mpr (by simpa using hx)

theorem insertPost_pairwise {a : Post} {l : List Post}
    (hl : l.Pairwise (fun x y => Date.le y.publishedAt x.publishedAt)) :
    (insertPost a l).Pairwise
      (fun x y => Date.le y.publishedAt x.publishedAt) := by
  induction l with
  | nil => simp [insertPost]
  | cons b l ih =>
    rw [List.pairwise_cons] at hl
    obtain ⟨hb, hl⟩ := hl
    simp only [insertPost]
    by_cases h : Date.le b.publishedAt a.publishedAt
    · simp only [h, if_true]
      refine List.Pairwise.cons ?_ (List.Pairwise.cons hb hl)
      intro x hx
      rcases List.mem_cons.mp hx with rfl | hx
      · exact h
      · exact Date.le_trans (hb x hx) h
    · simp only [h, if_false]
      refine List.Pairwise.cons ?_ (ih hl)
      intro x hx
      rcases mem_insertPost.mp hx with rfl | hx
      · rcases Date.le_total x.publishedAt b.publishedAt with h2 | h2
        · exact h2
        · exact absurd h2 h
      · exact hb x hx

theorem sortByDateDesc_pairwise (l : List Post) :
    (sortByDateDesc l).Pairwise
      (fun x y => Date.le y.publishedAt x.publishedAt) := by
  induction l with
  | nil => simp [sortByDateDesc]
  | cons a l ih => exact insertPost_pairwise ih

theorem insertPost_filter_key (q : Post → Bool) (d : Date)
    (hq : ∀ x, q x = true → x.publishedAt = d) (a : Post) (l : List Post) :
    (insertPost a l).filter q =
      if q a then a :: l.filter q else l.filter q := by
  induction l with
  | nil =>
    by_cases h2 : q a <;> simp [insertPost, h2]
  | cons b l ih =>
    simp only [insertPost]
    by_cases h : Date.le b.publishedAt a.publishedAt
    · simp only [h, if_true]
      by_cases h2 : q a <;> simp [List.filter_cons, h2]
    · simp only [h, if_false]
      by_cases h2 : q a = true
      · have hb : ¬ q b = true := by
          intro hbd
          exact h (by rw [hq b hbd, ← hq a h2]; exact Date.le_refl _)
        simp [List.filter_cons, hb, h2, ih]
      · simp [List.filter_cons, h2, ih]

theorem sortByDateDesc_filter_key (q : Post → Bool) (d : Date)
    (hq : ∀ x, q x = true → x.publishedAt = d) (l : List Post) :
    (sortByDateDesc l).filter q = l.filter q := by
  induction l with
  | nil => rfl
  | cons a l ih =>
    simp only [sortByDateDesc, insertPost_filter_key q d hq, ih]
    by_cases h2 : q a <;> simp [List.filter_cons, h2]

/-! ## Assembler lemmas -/

theorem parseAll_append (xs ys : List RawFile) :
    parseAll (xs ++ ys) =
      ((parseAll xs).1 ++ (parseAll ys).1,
       (parseAll xs).2 ++ (parseAll ys).2) := by
  induction xs with
  | nil => simp [parseAll]
  | cons f fs ih =>
    simp only [List.cons_append, parseAll]
    cases parse f.lines <;> simp [ih]

theorem dedupeGo_pairwise (l seen : List (String × Post)) :
    (∀ x ∈ (dedupeGo seen l).1, ∀ q ∈ seen, ¬ q.2.slug = x.2.slug) ∧
    (dedupeGo seen l).1.Pairwise (fun a b => a.2.slug ≠ b.2.slug) := by
  induction l generalizing seen with
  | nil => simp [dedupeGo]
  | cons np rest ih =>
    simp only [dedupeGo]
    cases hf : seen.find? (fun q => q.2.slug == np.2.slug) with
    | some q => simpa using ih seen
    | none =>
      have hseen : ∀ q ∈ seen, ¬ q.2.slug = np.2.slug := by
        intro q hq
        have := List.find?_eq_none.mp hf q hq
        simpa using this
      obtain ⟨ih1, ih2⟩ := ih (seen ++ [np])
      constructor
      · intro x hx q hq
        rcases List.mem_cons.mp hx with rfl | hx
        · exact hseen q hq
        · exact ih1 x hx q (List.mem_append_left _ hq)
      · refine List.Pairwise.cons ?_ ih2
        intro b hb
        exact ih1 b hb np (List.mem_append_right _ (List.mem_singleton.mpr rfl))

theorem dedupeGo_dup_diag (l₁ : List (String × Post)) (n : String) (p : Post)
    (l₂ seen : List (String × Post))
    (hx : ∃ mq ∈ seen ++ l₁, mq.2.slug = p.slug) :
    ∃ mq, (mq ∈ seen ∨ mq ∈ l₁) ∧ mq.2.slug = p.slug ∧
      Diagnostic.duplicateSlug mq.1 n ∈
        (dedupeGo seen (l₁ ++ (n, p) :: l₂)).2 := by
  induction l₁ generalizing seen with
  | nil =>
    obtain ⟨mq, hmem, hs⟩ := hx
    simp only [List.append_nil] at hmem
    cases hf : seen.find? (fun q => q.2.slug == p.slug) with
    | none =>
      exact absurd (by simpa using hs)
        (by simpa using List.find?_eq_none.mp hf mq hmem)
    | some q =>
      refine ⟨q, Or.inl (List.mem_of_find?_eq_some hf), ?_, ?_⟩
      · simpa using List.find?_some hf
      · simp [dedupeGo, hf]
  | cons a l₁ ih =>
    simp only [List.cons_append, dedupeGo]
    cases hf : seen.find? (fun q => q.2.slug == a.2.slug) with
    | some qa =>
      have hqa : qa ∈ seen := List.mem_of_find?_eq_some hf
      have hqs : qa.2.slug = a.2.slug := by simpa using List.find?_some hf
      have hx' : ∃ mq ∈ seen ++ l₁, mq.2.slug = p.slug := by
        obtain ⟨mq, hmem, hs⟩ := hx
        rcases List.mem_append.mp hmem with hmem | hmem
        · exact ⟨mq, List.mem_append_left _ hmem, hs⟩
        · rcases List.mem_cons.mp hmem with rfl | hmem
          · exact ⟨qa, List.mem_append_left _ hqa, hqs.trans hs⟩
          · exact ⟨mq, List.mem_append_right _ hmem, hs⟩
      obtain ⟨mq, hmem, hs, hd⟩ := ih seen hx'
      refine ⟨mq, ?_, hs, List.mem_cons_of_mem _ hd⟩
      rcases hmem with hmem | hmem
      · exact Or.inl hmem
      · exact Or.inr (List.mem_cons_of_mem _ hmem)
    | none =>
      have hx' : ∃ mq ∈ (seen ++ [a]) ++ l₁, mq.2.slug = p.slug := by
        obtain ⟨mq, hmem, hs⟩ := hx
        refine ⟨mq, ?_, hs⟩
        rw [List.append_assoc, List.singleton_append]
        exact hmem
      obtain ⟨mq, hmem, hs, hd⟩ := ih (seen ++ [a]) hx'
      refine ⟨mq, ?_, hs, hd⟩
      rcases hmem with hmem | hmem
      · rcases List.mem_append.mp hmem with hmem | hmem
        · exact Or.inl hmem
        · rw [List.mem_singleton.mp hmem]
          exact Or.inr (List.mem_cons_self a l₁)
      · exact Or.inr (List.mem_cons_of_mem _ hmem)

theorem eq_of_pairwise_slug {l : List (String × Post)}
    (hl : l.Pairwise (fun a b => a.2.slug ≠ b.2.slug))
    {a b : String × Post} (ha : a ∈ l) (hb : b ∈ l)
    (hs : a.2.slug = b.2.slug) : a = b := by
  by_contra hne
  have hsym : Symmetric (fun a b : String × Post => a.2.slug ≠ b.2.slug) :=
    fun x y hxy he => hxy he.symm
  exact List.Pairwise.forall hsym hl ha hb hne hs

/-! ## Parser helper lemmas -/

theorem stripLastQuote_concat (cs : List Char) :
    stripLastQuote (cs ++ ['"']) = cs := by
  induction cs with
  | nil => rfl
  | cons c cs ih =>
    rw [List.cons_append, stripLastQuote]
    · exact congrArg (c :: ·) ih
    · intro _ hnil
      exact absurd hnil (by simp)

theorem buildPost_ok_body {meta body : List String} {p : Post}
    (h : buildPost meta body = .ok p) : p.body = body := by
  unfold buildPost at h
  repeat' split at h
  all_goals first
  | exact Except.noConfusion h
  | (injection h with h2; rw [← h2])

/-- C9: when the Presentation data table omits the optional `profile`
field, reading `profile` yields the explicit absent optional value
`none` (not an error or sentinel), and the required `mail`, `title` and
`description` fields retain their authored values unchanged. -/
theorem presentation_profile_absent_required_intact :
    presentation.profile = none ∧
    presentation.mail = "amir.shafat1@gmail.com" ∧
    presentation.title = "Hi, I’m Amir 👋" ∧
    presentation.description =
      "“Hey there! I’m Amir, your friendly neighborhood web developer." :=
  ⟨rfl, rfl, rfl, rfl⟩

/-! ## C6: how the content files actually begin -/

/-- C6 fails on the content store: it is not the case that every content
document begins with the `---` opening delimiter on its very first line
followed by the five key/value lines and the closing delimiter — the
Effect TS file opens with a blank line, and the Becoming a Better Web
Developer document has no front-matter block. -/
theorem contentStore_front_matter_counterexample :
    (contentStoreHeads.all fun f => beginsWithFrontMatter f.2) = false := by
  decide

/-- C6 amended: every content document other than the Effect TS file and
the Becoming a Better Web Developer document begins with the front-matter
block on its very first lines; the Effect TS file has exactly one leading
blank line before an otherwise well-formed front-matter block; and the
Becoming a Better Web Developer document does not begin with a
front-matter block at all. -/
theorem contentStore_front_matter_amended :
    (contentStoreHeads.all fun f =>
        f.1 == "05_Effect_TS_Full_Stack_Solutions.md" ||
        f.1 == "becoming-a-better-web-developer" ||
        beginsWithFrontMatter f.2) = true ∧
    effectTSHead.head? = some "" ∧
    beginsWithFrontMatter (effectTSHead.drop 1) = true ∧
    beginsWithFrontMatter becomingHead = false := by
  refine ⟨by decide, rfl, by decide, by decide⟩

/-! ## C1: the public listing excludes drafts -/

/-- C1: for every input set of content files, the sequence returned by
`listPublished()` contains no post whose `isPublish` field is false —
every post of the public listing has `isPublish = true`, so every draft
is excluded. -/
theorem listPublished_excludes_drafts (files : List RawFile) (p : Post)
    (hp : p ∈ listPublished (assemble files)) : p.isPublish = true :=
  (List.mem_filter.mp hp).2

/-- Witness for C1 on a concrete store of one published and one draft
file. -/
theorem listPublished_excludes_drafts_witness :
    postA ∈ listPublished (assemble [fileA, fileB]) ∧
      postA.isPublish = true :=
  ⟨by decide, listPublished_excludes_drafts [fileA, fileB] postA (by decide)⟩

/-! ## C2: the public listing is sorted and the sort is stable -/

/-- C2: for every input set of content files, `listPublished()` is sorted
by `publishedAt` descending — any two adjacent entries `a, b` satisfy
`b.publishedAt ≤ a.publishedAt` — and the sort is stable: for every date
`d`, the entries with `publishedAt = d` appear in exactly their input
(scan) order. -/
theorem listPublished_sorted_stable (files : List RawFile) :
    List.Chain' (fun a b => Date.le b.publishedAt a.publishedAt)
      (listPublished (assemble files)) ∧
    ∀ d : Date,
      (listPublished (assemble files)).filter
          (fun p => decide (p.publishedAt = d)) =
        ((assemble files).posts.map (·.2)).filter
          (fun p => p.isPublish && decide (p.publishedAt = d)) := by
  constructor
  · exact (((sortByDateDesc_pairwise _).filter _).chain')
  · intro d
    show ((sortByDateDesc ((assemble files).posts.map (·.2))).filter
        (·.isPublish)).filter (fun p => decide (p.publishedAt = d)) = _
    rw [List.filter_filter]
    have hq : ∀ x : Post,
        (decide (x.publishedAt = d) && x.isPublish) = true →
          x.publishedAt = d := by
      intro x hx
      rw [Bool.and_eq_true] at hx
      exact of_decide_eq_true hx.1
    rw [sortByDateDesc_filter_key _ d hq]
    refine List.filter_congr (fun x _ => ?_)
    rw [Bool.and_comm]

/-! ## C3: malformed files are skipped with a diagnostic -/

/-- C3: for every content store containing a file whose front matter
fails to parse (missing, unterminated, or with an unparsable required
field), assembling the collection retains exactly the posts it would
retain were the malformed file absent, and emits a
MalformedFrontMatter diagnostic identifying that file; the failure is a
diagnostic entry, not an exception. -/
theorem assemble_skips_malformed (l₁ l₂ : List RawFile) (f : RawFile)
    (e : ParseError) (hf : parse f.lines = .error e) :
    (assemble (l₁ ++ f :: l₂)).posts = (assemble (l₁ ++ l₂)).posts ∧
    Diagnostic.malformedFrontMatter f.name e ∈
      (assemble (l₁ ++ f :: l₂)).diagnostics := by
  have hp : (parseAll (l₁ ++ f :: l₂)).1 = (parseAll (l₁ ++ l₂)).1 := by
    rw [parseAll_append, parseAll_append]
    simp [parseAll, hf]
  have hd : Diagnostic.malformedFrontMatter f.name e ∈
      (parseAll (l₁ ++ f :: l₂)).2 := by
    rw [parseAll_append]
    simp [parseAll, hf]
  constructor
  · have h1 : (assemble (l₁ ++ f :: l₂)).posts =
        (dedupeSlugs (parseAll (l₁ ++ f :: l₂)).1).1 := rfl
    have h2 : (assemble (l₁ ++ l₂)).posts =
        (dedupeSlugs (parseAll (l₁ ++ l₂)).1).1 := rfl
    rw [h1, h2, hp]
  · exact List.mem_append_left _ (List.mem_append_left _ hd)

/-- Witness for C3 on a concrete store with one valid file and one file
missing its closing front-matter marker. -/
theorem assemble_skips_malformed_witness :
    (assemble [fileA, fileBad]).posts = (assemble [fileA]).posts ∧
    Diagnostic.malformedFrontMatter "bad.md"
        ParseError.unterminatedFrontMatter ∈
      (assemble [fileA, fileBad]).diagnostics :=
  assemble_skips_malformed [fileA] [] fileBad
    ParseError.unterminatedFrontMatter rfl

/-! ## C4: slug uniqueness and duplicate-slug diagnostics -/

/-- C4: for every input set of content files, any two posts of the
assembled collection have distinct slugs; and whenever two parsed input
files resolve to the same slug, a DuplicateSlug diagnostic reporting an
earlier same-slug file together with the later file is emitted — neither
file silently shadows the other. -/
theorem assemble_slug_unique_dup_diag (files : List RawFile) :
    (assemble files).posts.Pairwise (fun a b => a.2.slug ≠ b.2.slug) ∧
    ∀ l₁ n p l₂, (parseAll files).1 = l₁ ++ (n, p) :: l₂ →
      (∃ mq ∈ l₁, mq.2.slug = p.slug) →
      ∃ mq ∈ l₁, mq.2.slug = p.slug ∧
        Diagnostic.duplicateSlug mq.1 n ∈ (assemble files).diagnostics := by
  constructor
  · exact (dedupeGo_pairwise (parseAll files).1 []).2
  · intro l₁ n p l₂ hsplit hx
    have hx' : ∃ mq ∈ ([] : List (String × Post)) ++ l₁,
        mq.2.slug = p.slug := by simpa using hx
    obtain ⟨mq, hmem, hs, hd⟩ := dedupeGo_dup_diag l₁ n p l₂ [] hx'
    have hmem' : mq ∈ l₁ := by
      rcases hmem with h | h
      · cases h
      · exact h
    refine ⟨mq, hmem', hs, ?_⟩
    have hh : Diagnostic.duplicateSlug mq.1 n ∈
        (dedupeGo [] (parseAll files).1).2 := by
      rw [hsplit]
      exact hd
    exact List.mem_append_left _ (List.mem_append_right _ hh)

/-- Witness for C4 on a concrete store of two files declaring
`slug: "same-slug"`. -/
theorem assemble_slug_unique_dup_diag_witness :
    ∃ mq ∈ [("dup1.md", postDup1)], mq.2.slug = postDup2.slug ∧
      Diagnostic.duplicateSlug mq.1 "dup2.md" ∈
        (assemble [fileDup1, fileDup2]).diagnostics :=
  (assemble_slug_unique_dup_diag [fileDup1, fileDup2]).2
    [("dup1.md", postDup1)] "dup2.md" postDup2 [] rfl
    ⟨("dup1.md", postDup1), List.mem_singleton.mpr rfl, rfl⟩

/-! ## C5: lookup misses and drafts report "not found" -/

/-- C5: `getBySlug` returns the distinguishable "not found" value `none`
(not an exception) whenever no post of the collection has the requested
slug; and for a slug belonging to a post with `isPublish = false`, a
caller not authorized to see drafts also receives `none`. -/
theorem getBySlug_notFound (files : List RawFile) (s : String)
    (authorized : Bool) :
    ((∀ np ∈ (assemble files).posts, np.2.slug ≠ s) →
        getBySlug authorized (assemble files) s = none) ∧
    ∀ np ∈ (assemble files).posts, np.2.slug = s →
      np.2.isPublish = false →
      getBySlug false (assemble files) s = none := by
  constructor
  · intro h
    have hf : (assemble files).posts.find? (fun np => np.2.slug == s) =
        none :=
      List.find?_eq_none.mpr (fun np hnp => by simpa using h np hnp)
    simp [getBySlug, hf]
  · intro np hnp hs hpub
    cases hf : (assemble files).posts.find? (fun np => np.2.slug == s) with
    | none => simp [getBySlug, hf]
    | some q =>
      have hq : q ∈ (assemble files).posts := List.mem_of_find?_eq_some hf
      have hqs : q.2.slug = s := by simpa using List.find?_some hf
      have hqe : q = np :=
        eq_of_pairwise_slug (dedupeGo_pairwise (parseAll files).1 []).2
          hq hnp (hqs.trans hs.symm)
      simp [getBySlug, hf, hqe, hpub]

/-- Witness for C5: a missing slug and a draft slug both report `none` on
a concrete store. -/
theorem getBySlug_notFound_witness :
    getBySlug true (assemble [fileA, fileB]) "nope" = none ∧
    getBySlug false (assemble [fileA, fileB]) "draft-post" = none :=
  ⟨(getBySlug_notFound [fileA, fileB] "nope" true).1 (by decide),
   (getBySlug_notFound [fileA, fileB] "draft-post" false).2
     ("b.md", postB) (by decide) rfl rfl⟩

/-! ## C7: the slug is returned verbatim -/

/-- C7: for every slug value `v` — with no restriction to URL-safe
strings — parsing a valid content file whose front matter declares
`slug: "<v>"` yields a post whose `slug` equals `v` character for
character: no trimming, case folding, or replacement of spaces. -/
theorem parse_slug_verbatim (v : String) (body : List String) :
    parse (mkSlugTestFile v body) =
      .ok { title := "T", publishedAt := ⟨2024, 12, 24⟩, description := ""
            slug := v, isPublish := true, body := body } := by
  have step : parse (mkSlugTestFile v body) =
      .ok { title := "T", publishedAt := ⟨2024, 12, 24⟩, description := ""
            slug := ⟨stripLastQuote (v.data ++ ['"'])⟩, isPublish := true
            body := body } := rfl
  rw [step, stripLastQuote_concat]

/-! ## C8: listAll is at least as long as listPublished -/

/-- C8 fails as stated: on a store of a published file and a draft file
sharing `slug: "same-slug"`, the draft parses successfully but is dropped
by duplicate-slug resolution, so `listPublished()` and `listAll()` have
equal lengths even though a successfully parsed post has
`isPublish = false`. -/
theorem listAll_length_parsed_draft_counterexample :
    (listPublished (assemble [fileDup1, fileDupDraft])).length =
      (listAll (assemble [fileDup1, fileDupDraft])).length ∧
    ¬ ∀ np ∈ (parseAll [fileDup1, fileDupDraft]).1,
        np.2.isPublish = true := by
  decide

/-- C8 amended: for every input set of content files, `listAll()` is at
least as long as `listPublished()`, with equality exactly when no post
retained in the assembled collection has `isPublish = false` —
successfully parsed posts dropped by duplicate-slug resolution are not
counted. -/
theorem listAll_length_ge_listPublished (files : List RawFile) :
    (listPublished (assemble files)).length ≤
      (listAll (assemble files)).length ∧
    ((listPublished (assemble files)).length =
        (listAll (assemble files)).length ↔
      ∀ p ∈ listAll (assemble files), p.isPublish = true) := by
  constructor
  · exact List.length_filter_le _ _
  · constructor
    · intro h
      have hfe : (listAll (assemble files)).filter (·.isPublish) =
          listAll (assemble files) :=
        (List.filter_sublist _).eq_of_length h
      intro p hp
      simpa using List.filter_eq_self.mp hfe p hp
    · intro h
      have hfe : (listAll (assemble files)).filter (·.isPublish) =
          listAll (assemble files) :=
        List.filter_eq_self.mpr (fun a ha => by simpa using h a ha)
      show ((listAll (assemble files)).filter (·.isPublish)).length = _
      rw [hfe]

/-- Witness for C8 on a concrete store whose posts are all published. -/
theorem listAll_length_ge_listPublished_witness :
    (listPublished (assemble [fileA])).length =
      (listAll (assemble [fileA])).length :=
  (listAll_length_ge_listPublished [fileA]).2.mpr (by decide)

/-! ## C10: later `---` lines stay in the body -/

/-- Splitting at the closing delimiter stops at the first `---` line:
everything before it is metadata, everything after it is the body,
verbatim. -/
theorem splitAtDelim_append (meta body : List String)
    (hm : ∀ l ∈ meta, isDelim l = false) :
    splitAtDelim (meta ++ "---" :: body) = some (meta, body) := by
  induction meta with
  | nil => rfl
  | cons l ms ih =>
    have hl : isDelim l = false := hm l (List.mem_cons_self l ms)
    have ihh := ih (fun x hx => hm x (List.mem_cons_of_mem _ hx))
    rw [List.cons_append]
    simp [splitAtDelim, hl, ihh]

/-- C10: for a file whose front-matter block is opened and closed by the
first two `---` lines, only the lines between those delimiters are parsed
as metadata, and every later line — including any `---` horizontal rule —
is retained verbatim as the parsed post's body. -/
theorem parse_later_delims_in_body (meta body : List String)
    (hm : ∀ l ∈ meta, isDelim l = false) :
    splitAtDelim (meta ++ "---" :: body) = some (meta, body) ∧
    ∀ p, parse ("---" :: meta ++ "---" :: body) = .ok p →
      p.body = body := by
  refine ⟨splitAtDelim_append meta body hm, ?_⟩
  intro p hp
  have hparse : parse ("---" :: meta ++ "---" :: body) =
      buildPost meta body := by
    have hdelim : isDelim "---" = true := rfl
    simp [parse, hdelim, splitAtDelim_append meta body hm]
  rw [hparse] at hp
  exact buildPost_ok_body hp

/-- Witness for C10 on a Deno-shaped file whose body contains `---`
horizontal rules and even ends with a `---` line. -/
theorem parse_later_delims_in_body_witness :
    splitAtDelim (denoMeta ++ "---" :: denoBody) =
      some (denoMeta, denoBody) ∧
    denoPost.body = denoBody :=
  ⟨(parse_later_delims_in_body denoMeta denoBody (by decide)).1,
   (parse_later_delims_in_body denoMeta denoBody (by decide)).2
     denoPost rfl⟩

end Portfolio




